import Mathlib

/-
Verification development for the turbulence generator
(turbulence_generator.h).  The C code is shallowly embedded:

* C doubles become real numbers; the floating-point evaluation order of
  every expression is kept, but arithmetic is exact.
* The global structure tgd becomes the explicit state TG, passed and
  returned by every operation.  C static storage is zero-initialized, so
  unwritten array entries are modelled as 0.
* The Numerical Recipes generators ran1s and ran2 act on explicit integer
  state; C integer division (truncation toward zero) is Int.tdiv.
* Fatal exits (parameter errors, mode-count overflow) abort the process
  without changing observable state, so they are not modelled.
-/

namespace TurbGen

/-- Constants of ran1s (Numerical Recipes). -/
def IA : ℤ := 16807
def IM : ℤ := 2147483647
def IQ : ℤ := 127773
def IR : ℤ := 2836

/-- AM = 1.0/IM in ran1s. -/
noncomputable def AM : ℝ := 1 / 2147483647

/-- RNMX = 1.0 - EPS with EPS = 1.2e-7. -/
noncomputable def RNMX : ℝ := 1 - 1.2e-7

/-- Seed transition of TurbGen_ran1s: the function updates *idum in place;
the returned deviate is AM times the updated seed (capped at RNMX). -/
def ran1s_update (idum : ℤ) : ℤ :=
  let i0 := if idum ≤ 0 then max (-idum) 1 else idum
  let k := Int.tdiv i0 IQ
  let i1 := IA * (i0 - k * IQ) - IR * k
  if i1 < 0 then i1 + IM else i1

/-- Value returned by TurbGen_ran1s for incoming seed idum. -/
noncomputable def ran1s_val (idum : ℤ) : ℝ :=
  min (AM * (ran1s_update idum : ℝ)) RNMX

/-- Seed transition of TurbGen_grn: two ran1s draws per Gaussian deviate. -/
def grn_update (seed : ℤ) : ℤ := ran1s_update (ran1s_update seed)

/-- Value returned by TurbGen_grn (polar Box-Muller, cosine branch):
sqrt(2*log(1/r1)) * cos(2*pi*r2). -/
noncomputable def grn_val (seed : ℤ) : ℝ :=
  let r1 := ran1s_val seed
  let r2 := ran1s_val (ran1s_update seed)
  Real.sqrt (2 * Real.log (1 / r1)) * Real.cos (2 * Real.pi * r2)

/-- Constants of ran2 (Numerical Recipes, long-period L'Ecuyer generator). -/
def IM1 : ℤ := 2147483563
def IM2 : ℤ := 2147483399
def IMM1 : ℤ := IM1 - 1
def IA1 : ℤ := 40014
def IA2 : ℤ := 40692
def IQ1 : ℤ := 53668
def IQ2 : ℤ := 52774
def IR1 : ℤ := 12211
def IR2 : ℤ := 3791
def NTAB : ℤ := 32
def NDIV : ℤ := 1 + Int.tdiv IMM1 NTAB

/-- AM = 1.0/IM1 in ran2. -/
noncomputable def AM2 : ℝ := 1 / 2147483563

/-- The update applied by ran2 to its idum argument (Schrage step of the
first component generator, lines k = idum/IQ1; idum = IA1*(...)-k*IR1). -/
def ran2_lcg1 (idum : ℤ) : ℤ :=
  let k := Int.tdiv idum IQ1
  let i1 := IA1 * (idum - k * IQ1) - k * IR1
  if i1 < 0 then i1 + IM1 else i1

/-- Static state of ran2: idum2, iy and the 32-entry shuffle table iv
(modelled as a total map, reads and writes at integer indices).  At program
start idum2 = 123456789, iy = 0, iv = 0. -/
structure Ran2State where
  idum2 : ℤ
  iy : ℤ
  iv : ℤ → ℤ

/-- The Ran2State at program start (C static initializers). -/
def ran2_start : Ran2State := ⟨123456789, 0, fun _ => 0⟩

/-- TurbGen_ran2: takes the caller's idum and the static state, returns the
updated idum, the updated static state, and the uniform deviate.  A
non-positive idum triggers the warm-up loop that fills the shuffle table. -/
noncomputable def ran2 (idum : ℤ) (st : Ran2State) : ℤ × Ran2State × ℝ :=
  let a :=
    if idum ≤ 0 then
      let i0 := max (-idum) 1
      let w := ((List.range 40).reverse).foldl
        (fun acc j =>
          let i1 := ran2_lcg1 acc.1
          (i1, if (j : ℤ) < NTAB then Function.update acc.2 (j : ℤ) i1 else acc.2))
        (i0, st.iv)
      (w.1, Ran2State.mk i0 (w.2 0) w.2)
    else (idum, st)
  let idumB := ran2_lcg1 a.1
  let k2 := Int.tdiv a.2.idum2 IQ2
  let t2 := IA2 * (a.2.idum2 - k2 * IQ2) - k2 * IR2
  let idum2B := if t2 < 0 then t2 + IM2 else t2
  let j := Int.tdiv a.2.iy NDIV
  let iy0 := a.2.iv j - idum2B
  let ivB := Function.update a.2.iv j idumB
  let iyB := if iy0 < 1 then iy0 + IMM1 else iy0
  (idumB, Ran2State.mk idum2B iyB ivB, min (AM2 * (iyB : ℝ)) RNMX)

/-- The global generator state tgd (fields used by the core operations). -/
structure TG where
  n_modes : ℕ
  ndim : ℕ
  mode : ℕ → ℕ → ℝ
  ampl : ℕ → ℝ
  OUphases : ℕ → ℝ
  aka : ℕ → ℕ → ℝ
  akb : ℕ → ℕ → ℝ
  sol_weight : ℝ
  sol_weight_norm : ℝ
  OUvar : ℝ
  dt : ℝ
  decay : ℝ
  stir_min : ℝ
  stir_max : ℝ
  step : ℤ
  seed : ℤ

/-- One iteration of the loops of TurbGen_OU_noise_init and
TurbGen_OU_noise_update: slot i receives a value computed from its old
content and the current seed, and the seed advances by one Gaussian draw. -/
noncomputable def OU_fold_step (g : ℝ → ℤ → ℝ) (acc : (ℕ → ℝ) × ℤ) (i : ℕ) :
    (ℕ → ℝ) × ℤ :=
  (Function.update acc.1 i (g (acc.1 i) acc.2), grn_update acc.2)

/-- TurbGen_OU_noise_init: OUphases[i] = OUvar * grn() for i < 6*n_modes. -/
noncomputable def OU_noise_init (s : TG) : TG :=
  let r := (List.range (6 * s.n_modes)).foldl
    (OU_fold_step (fun _ sd => s.OUvar * grn_val sd)) (s.OUphases, s.seed)
  { s with OUphases := r.1, seed := r.2 }

/-- TurbGen_OU_noise_update: OUphases[i] = OUphases[i]*f +
sqrt(1-f*f)*OUvar*grn() for i < 6*n_modes with f = exp(-dt/decay), then
step is incremented. -/
noncomputable def OU_noise_update (s : TG) : TG :=
  let damping_factor := Real.exp (-s.dt / s.decay)
  let r := (List.range (6 * s.n_modes)).foldl
    (OU_fold_step (fun ph sd =>
      ph * damping_factor +
        Real.sqrt (1 - damping_factor * damping_factor) * s.OUvar * grn_val sd))
    (s.OUphases, s.seed)
  { s with OUphases := r.1, seed := r.2, step := s.step + 1 }

/-- kk of TurbGen_get_decomposition_coeffs: sum of squared wavevector
components over the active dimensions. -/
noncomputable def kk (s : TG) (i : ℕ) : ℝ :=
  ∑ j in Finset.range s.ndim, s.mode j i * s.mode j i

/-- ka of TurbGen_get_decomposition_coeffs. -/
noncomputable def ka (s : TG) (i : ℕ) : ℝ :=
  ∑ j in Finset.range s.ndim, s.mode j i * s.OUphases (6 * i + 2 * j + 1)

/-- kb of TurbGen_get_decomposition_coeffs. -/
noncomputable def kb (s : TG) (i : ℕ) : ℝ :=
  ∑ j in Finset.range s.ndim, s.mode j i * s.OUphases (6 * i + 2 * j)

/-- diva of TurbGen_get_decomposition_coeffs. -/
noncomputable def diva (s : TG) (i j : ℕ) : ℝ := s.mode j i * ka s i / kk s i

/-- divb of TurbGen_get_decomposition_coeffs. -/
noncomputable def divb (s : TG) (i j : ℕ) : ℝ := s.mode j i * kb s i / kk s i

/-- curla of TurbGen_get_decomposition_coeffs. -/
noncomputable def curla (s : TG) (i j : ℕ) : ℝ :=
  s.OUphases (6 * i + 2 * j) - divb s i j

/-- curlb of TurbGen_get_decomposition_coeffs. -/
noncomputable def curlb (s : TG) (i j : ℕ) : ℝ :=
  s.OUphases (6 * i + 2 * j + 1) - diva s i j

/-- TurbGen_get_decomposition_coeffs: writes aka and akb for every mode
index i < n_modes and axis j < ndim; all other entries keep their value. -/
noncomputable def get_decomposition_coeffs (s : TG) : TG :=
  { s with
    aka := fun j i =>
      if i < s.n_modes ∧ j < s.ndim then
        s.sol_weight * curla s i j + (1 - s.sol_weight) * divb s i j
      else s.aka j i,
    akb := fun j i =>
      if i < s.n_modes ∧ j < s.ndim then
        s.sol_weight * curlb s i j + (1 - s.sol_weight) * diva s i j
      else s.akb j i }

/-- The expression assigned to real in TurbGen_get_turb_vector for mode m. -/
noncomputable def turb_real (s : TG) (m : ℕ) (x y z : ℝ) : ℝ :=
  let sinx := Real.sin (s.mode 0 m * x)
  let cosx := Real.cos (s.mode 0 m * x)
  let siny := Real.sin (s.mode 1 m * y)
  let cosy := Real.cos (s.mode 1 m * y)
  let sinz := Real.sin (s.mode 2 m * z)
  let cosz := Real.cos (s.mode 2 m * z)
  (cosx * cosy - sinx * siny) * cosz - (sinx * cosy + cosx * siny) * sinz

/-- The expression assigned to imag in TurbGen_get_turb_vector for mode m. -/
noncomputable def turb_imag (s : TG) (m : ℕ) (x y z : ℝ) : ℝ :=
  let sinx := Real.sin (s.mode 0 m * x)
  let cosx := Real.cos (s.mode 0 m * x)
  let siny := Real.sin (s.mode 1 m * y)
  let cosy := Real.cos (s.mode 1 m * y)
  let sinz := Real.sin (s.mode 2 m * z)
  let cosz := Real.cos (s.mode 2 m * z)
  cosx * (cosy * sinz + siny * cosz) + sinx * (cosy * cosz - siny * sinz)

/-- TurbGen_get_turb_vector, component c (c = 0,1,2 for vx,vy,vz): the
accumulation loop over all modes. -/
noncomputable def get_turb_vector (s : TG) (x y z : ℝ) (c : ℕ) : ℝ :=
  ∑ m in Finset.range s.n_modes,
    2 * s.sol_weight_norm * s.ampl m *
      (s.aka c m * turb_real s m x y z - s.akb c m * turb_imag s m x y z)

/-- The update loop of TurbGen_check_for_update: for (is = step;
is < step_requested; is++) OU_noise_update(). -/
noncomputable def OU_loop (is tgt : ℤ) (s : TG) : TG :=
  if h : is < tgt then OU_loop (is + 1) tgt (OU_noise_update s) else s
termination_by (tgt - is).toNat
decreasing_by omega

/-- TurbGen_check_for_update: returns the bool result and the state after
the call. -/
noncomputable def check_for_update (t : ℝ) (s : TG) : Bool × TG :=
  let step_requested : ℤ := ⌊t / s.dt⌋
  if step_requested ≤ s.step then (false, s)
  else (true, get_decomposition_coeffs (OU_loop s.step step_requested s))

/-- One generated mode: amplitude and physical wavevector. -/
structure Mode where
  ampl : ℝ
  kx : ℝ
  ky : ℝ
  kz : ℝ

/-- Component access for a mode's wavevector (axes 0,1,2; any further axis
reads the zero-initialized storage). -/
def Mode.comp (m : Mode) : ℕ → ℝ
  | 0 => m.kx
  | 1 => m.ky
  | 2 => m.kz
  | _ => 0

/-- The fields of tgd read (and, through the seed, written) by
TurbGen_init_modes. -/
structure Cfg where
  ndim : ℕ
  Lx : ℝ
  Ly : ℝ
  Lz : ℝ
  stir_min : ℝ
  stir_max : ℝ
  spect_form : ℕ
  power_law_exp : ℝ
  angles_exp : ℝ
  seed : ℤ

/-- C round(): rounding half away from zero. -/
noncomputable def cround (x : ℝ) : ℤ :=
  if 0 ≤ x then ⌊x + 1 / 2⌋ else -⌊-x + 1 / 2⌋

/-- kc of TurbGen_init_modes: stir_min, except the band midpoint for the
parabolic spectrum. -/
noncomputable def kc (c : Cfg) : ℝ :=
  if c.spect_form = 1 then 0.5 * (c.stir_min + c.stir_max) else c.stir_min

/-- parab_prefact of TurbGen_init_modes. -/
noncomputable def parab_prefact (c : Cfg) : ℝ :=
  -4 / (c.stir_max - c.stir_min) ^ (2 : ℕ)

/-- Amplitude assigned to an in-band lattice wavevector of magnitude k for
the Band and Parabola spectra (the C pow calls carry exact integral
exponents where a natural power is used). -/
noncomputable def amplitudeBP (c : Cfg) (k : ℝ) : ℝ :=
  let a0 : ℝ :=
    if c.spect_form = 0 then 1 else |parab_prefact c * (k - kc c) ^ (2 : ℕ) + 1|
  Real.sqrt a0 * Real.rpow (kc c / k) (((c.ndim : ℝ) - 1) / 2)

/-- The integer lattice enumerated by the triple loop of
TurbGen_init_modes: ikx in [0,256], iky and ikz restricted to 0 for axes
beyond the dimensionality. -/
def lattice (ndim : ℕ) : List (ℕ × ℕ × ℕ) :=
  (List.range 257).flatMap fun ikx =>
    (List.range (if 1 < ndim then 257 else 1)).flatMap fun iky =>
      (List.range (if 2 < ndim then 257 else 1)).map fun ikz => (ikx, iky, ikz)

/-- Physical wavevector x-component: kx = 2*pi*ikx/Lx. -/
noncomputable def kxv (c : Cfg) (ik : ℕ) : ℝ := 2 * Real.pi * (ik : ℝ) / c.Lx

/-- Physical wavevector y-component: ky = 2*pi*iky/Ly. -/
noncomputable def kyv (c : Cfg) (ik : ℕ) : ℝ := 2 * Real.pi * (ik : ℝ) / c.Ly

/-- Physical wavevector z-component: kz = 2*pi*ikz/Lz. -/
noncomputable def kzv (c : Cfg) (ik : ℕ) : ℝ := 2 * Real.pi * (ik : ℝ) / c.Lz

/-- k = sqrt(kx*kx + ky*ky + kz*kz) for a lattice point. -/
noncomputable def kmagBP (c : Cfg) (i : ℕ × ℕ × ℕ) : ℝ :=
  Real.sqrt (kxv c i.1 * kxv c i.1 + kyv c i.2.1 * kyv c i.2.1 +
    kzv c i.2.2 * kzv c i.2.2)

/-- The in-band test (k >= stir_min) and (k <= stir_max) of the lattice
loops. -/
def inBandBP (c : Cfg) (i : ℕ × ℕ × ℕ) : Prop :=
  c.stir_min ≤ kmagBP c i ∧ kmagBP c i ≤ c.stir_max

/-- The mode entries appended for one retained lattice point: the point
itself, its y-mirror for ndim > 1, and the two extra z-mirrors for
ndim > 2. -/
def mirror_modes (ndim : ℕ) (a kx ky kz : ℝ) : List Mode :=
  [⟨a, kx, ky, kz⟩] ++ (if 1 < ndim then [⟨a, kx, -ky, kz⟩] else []) ++
    (if 2 < ndim then [⟨a, kx, ky, -kz⟩, ⟨a, kx, -ky, -kz⟩] else [])

open Classical in
/-- The generation pass of TurbGen_init_modes for the Band and Parabola
spectra (the array writes indexed by the running n_modes counter become
list appends). -/
noncomputable def init_modes_BP (c : Cfg) : List Mode :=
  (lattice c.ndim).flatMap fun i =>
    if inBandBP c i then
      mirror_modes c.ndim (amplitudeBP c (kmagBP c i)) (kxv c i.1)
        (kyv c i.2.1) (kzv c i.2.2)
    else []

open Classical in
/-- The preliminary counting pass of TurbGen_init_modes: every in-band
lattice point contributes 1, plus 1 for ndim > 1, plus 2 for ndim > 2. -/
noncomputable def count_modes (c : Cfg) : ℕ :=
  ((lattice c.ndim).map fun i =>
    if inBandBP c i then
      1 + (if 1 < c.ndim then 1 else 0) + (if 2 < c.ndim then 2 else 0)
    else 0).sum

/-- Amplitude of a retained power-law mode of magnitude k on shell ik with
nang sampled angles. -/
noncomputable def pl_amplitude (c : Cfg) (ik nang : ℤ) (k : ℝ) : ℝ :=
  Real.sqrt (Real.rpow (k / kc c) c.power_law_exp *
      Real.rpow (ik : ℝ) ((c.ndim : ℝ) - 1) / (nang : ℝ) * 4 * Real.sqrt 3) *
    Real.rpow (kc c / k) (((c.ndim : ℝ) - 1) / 2)

/-- State threaded through the power-law sampling loops: the ran2 statics,
tgd.seed, and the modes generated so far. -/
structure PLState where
  r2 : Ran2State
  seed : ℤ
  modes : List Mode

/-- The draws and the rounded candidate wavevector of one iteration of the
angle loop of the power-law branch: phi from one ran2 draw (collapsed to 0
or pi in 1D), theta from a second draw in 3D only, the jittered radius
from a third draw; returns ((new tgd.seed, new ran2 statics), kx, ky, kz). -/
noncomputable def pl_candidate (c : Cfg) (ik : ℤ) (st : PLState) :
    (ℤ × Ran2State) × ℝ × ℝ × ℝ :=
  let d1 := ran2 st.seed st.r2
  let phi0 := 2 * Real.pi * d1.2.2
  let phi := if c.ndim = 1 then (if phi0 < Real.pi then 0 else Real.pi) else phi0
  let d2 := if 2 < c.ndim then ran2 d1.1 d1.2.1 else (d1.1, d1.2.1, 0)
  let theta := if 2 < c.ndim then Real.arccos (1 - 2 * d2.2.2) else Real.pi / 2
  let d3 := ran2 d2.1 d2.2.1
  let rand := (ik : ℝ) + d3.2.2 - 0.5
  let kx := 2 * Real.pi * (cround (rand * Real.sin theta * Real.cos phi) : ℝ) / c.Lx
  let ky :=
    if 1 < c.ndim then
      2 * Real.pi * (cround (rand * Real.sin theta * Real.sin phi) : ℝ) / c.Ly
    else 0
  let kz :=
    if 2 < c.ndim then
      2 * Real.pi * (cround (rand * Real.cos theta) : ℝ) / c.Lz
    else 0
  ((d3.1, d3.2.1), kx, ky, kz)

open Classical in
/-- One iteration of the angle loop of the power-law branch: compute the
candidate, and append it to the mode list exactly when its magnitude
k = sqrt(kx*kx + ky*ky + kz*kz) lies in the band. -/
noncomputable def pl_angle_step (c : Cfg) (ik nang : ℤ) (st : PLState) :
    PLState :=
  let w := pl_candidate c ik st
  let k := Real.sqrt (w.2.1 * w.2.1 + w.2.2.1 * w.2.2.1 + w.2.2.2 * w.2.2.2)
  if c.stir_min ≤ k ∧ k ≤ c.stir_max then
    ⟨w.1.2, w.1.1, st.modes ++ [⟨pl_amplitude c ik nang k, w.2.1, w.2.2.1, w.2.2.2⟩]⟩
  else ⟨w.1.2, w.1.1, st.modes⟩

/-- One iteration of the shell loop of the power-law branch: nang angle
samples on shell ik, nang = 2^ndim * ceil(ik^angles_exp). -/
noncomputable def pl_ik_step (c : Cfg) (st : PLState) (ik : ℤ) : PLState :=
  let nang : ℤ := (2 : ℤ) ^ c.ndim * ⌈Real.rpow (ik : ℝ) c.angles_exp⌉
  (List.range nang.toNat).foldl (fun a _ => pl_angle_step c ik nang a) st

/-- The power-law branch of TurbGen_init_modes: ran2 is first initialized
with the negated seed through a discarded local variable, then the shells
from ikmin to ikmax are sampled with the draws consuming tgd.seed. -/
noncomputable def init_modes_PL (c : Cfg) : PLState :=
  let st0 : PLState := ⟨(ran2 (-c.seed) ran2_start).2.1, c.seed, []⟩
  let ikmin : ℤ := max 1 (cround (c.stir_min * c.Lx / (2 * Real.pi)))
  let ikmax : ℤ := cround (c.stir_max * c.Lx / (2 * Real.pi))
  ((List.range (ikmax - ikmin + 1).toNat).map fun n => ikmin + (n : ℤ)).foldl
    (pl_ik_step c) st0

/-- TurbGen_init_modes: the generated mode list together with the value of
tgd.seed after the call (only the power-law branch consumes the seed). -/
noncomputable def init_modes (c : Cfg) : List Mode × ℤ :=
  if c.spect_form = 2 then ((init_modes_PL c).modes, (init_modes_PL c).seed)
  else (init_modes_BP c, c.seed)

/-- The values read from the parameter file by
TurbGen_init_turbulence_generator. -/
structure Params where
  ndim : ℕ
  xmin : ℝ
  xmax : ℝ
  ymin : ℝ
  ymax : ℝ
  zmin : ℝ
  zmax : ℝ
  velocity : ℝ
  k_driv : ℝ
  k_min : ℝ
  k_max : ℝ
  sol_weight : ℝ
  spect_form : ℕ
  power_law_exp : ℝ
  angles_exp : ℝ
  energy_coeff : ℝ
  random_seed : ℤ
  nsteps_per_turnover_time : ℕ

/-- DBL_EPSILON = 2^-52. -/
noncomputable def dblEpsilon : ℝ := 1 / 2 ^ (52 : ℕ)

/-- The derived quantities handed to TurbGen_init_modes. -/
noncomputable def init_cfg (p : Params) : Cfg :=
  { ndim := p.ndim
    Lx := p.xmax - p.xmin
    Ly := p.ymax - p.ymin
    Lz := p.zmax - p.zmin
    stir_min := (p.k_min - dblEpsilon) * 2 * Real.pi / (p.xmax - p.xmin)
    stir_max := (p.k_max + dblEpsilon) * 2 * Real.pi / (p.xmax - p.xmin)
    spect_form := p.spect_form
    power_law_exp := p.power_law_exp
    angles_exp := p.angles_exp
    seed := p.random_seed }

/-- sol_weight_norm as set by the three dimension-dependent assignments
(an out-of-range ndim leaves the zero-initialized value). -/
noncomputable def sol_weight_norm_of (ndim : ℕ) (w : ℝ) : ℝ :=
  if ndim = 3 then
    Real.sqrt (3 / 3) * Real.sqrt 3 * 1 / Real.sqrt (1 - 2 * w + 3 * w ^ (2 : ℕ))
  else if ndim = 2 then
    Real.sqrt (3 / 2) * Real.sqrt 3 * 1 / Real.sqrt (1 - 2 * w + 2 * w ^ (2 : ℕ))
  else if ndim = 1 then
    Real.sqrt (3 / 1) * Real.sqrt 3 * 1 / Real.sqrt (1 - 2 * w + 1 * w ^ (2 : ℕ))
  else 0

/-- TurbGen_init_turbulence_generator after the parameter file has been
read: derived quantities, step = -1, seed = random_seed, then init_modes,
OU_noise_init and get_decomposition_coeffs. -/
noncomputable def init_turbulence_generator (p : Params) : TG :=
  let c := init_cfg p
  let mr := init_modes c
  let Lx := p.xmax - p.xmin
  let decay := Lx / p.k_driv / p.velocity
  let energy := p.energy_coeff * p.velocity ^ (3 : ℕ) / Lx
  let s0 : TG :=
    { n_modes := mr.1.length
      ndim := p.ndim
      mode := fun j i => ((mr.1.get? i).map (fun m => m.comp j)).getD 0
      ampl := fun i => ((mr.1.get? i).map Mode.ampl).getD 0
      OUphases := fun _ => 0
      aka := fun _ _ => 0
      akb := fun _ _ => 0
      sol_weight := p.sol_weight
      sol_weight_norm := sol_weight_norm_of p.ndim p.sol_weight
      OUvar := Real.sqrt (energy / decay)
      dt := decay / (p.nsteps_per_turnover_time : ℝ)
      decay := decay
      stir_min := c.stir_min
      stir_max := c.stir_max
      step := -1
      seed := mr.2 }
  get_decomposition_coeffs (OU_noise_init s0)

/-- A concrete configuration used to exercise the mode builder: one
dimension, unit box, band spectrum, band reduced to the single wavenumber
2*pi. -/
noncomputable def cfg0 : Cfg :=
  { ndim := 1, Lx := 1, Ly := 1, Lz := 1, stir_min := 2 * Real.pi,
    stir_max := 2 * Real.pi, spect_form := 0, power_law_exp := 0,
    angles_exp := 0, seed := 140281 }

/-- The mode that cfg0 generates from lattice point (1,0,0). -/
noncomputable def mode_w : Mode :=
  ⟨amplitudeBP cfg0 (kmagBP cfg0 (1, 0, 0)), kxv cfg0 1, kyv cfg0 0, kzv cfg0 0⟩

/-- A concrete generator state used to exercise the OU update and driver:
one mode in one dimension, unit wavevector entries, solenoidal weight 1,
unit time step and decay time, start step -1. -/
noncomputable def sW : TG :=
  { n_modes := 1, ndim := 1, mode := fun _ _ => 1, ampl := fun _ => 1,
    OUphases := fun _ => 0, aka := fun _ _ => 0, akb := fun _ _ => 0,
    sol_weight := 1, sol_weight_norm := 1, OUvar := 1, dt := 1, decay := 1,
    stir_min := 1, stir_max := 1, step := -1, seed := 140281 }

lemma cos_add3 (a b c : ℝ) :
    (Real.cos a * Real.cos b - Real.sin a * Real.sin b) * Real.cos c -
      (Real.sin a * Real.cos b + Real.cos a * Real.sin b) * Real.sin c =
      Real.cos (a + b + c) := by
  rw [Real.cos_add, Real.cos_add, Real.sin_add]

lemma sin_add3 (a b c : ℝ) :
    Real.cos a * (Real.cos b * Real.sin c + Real.sin b * Real.cos c) +
      Real.sin a * (Real.cos b * Real.cos c - Real.sin b * Real.sin c) =
      Real.sin (a + b + c) := by
  rw [Real.sin_add, Real.sin_add, Real.cos_add]
  ring

/-- C1: for every position and component, the angle-addition expressions
for real and imag in TurbGen_get_turb_vector equal cos(k.x) and sin(k.x)
for the 3D dot product k.x = kx*x + ky*y + kz*z, and the returned
component is the mode sum 2*sol_weight_norm*ampl*(aka*cos(k.x) -
akb*sin(k.x)). -/
theorem turb_vector_is_fourier_sum (s : TG) (x y z : ℝ) (c : ℕ) :
    (∀ m : ℕ,
      turb_real s m x y z =
        Real.cos (s.mode 0 m * x + s.mode 1 m * y + s.mode 2 m * z) ∧
      turb_imag s m x y z =
        Real.sin (s.mode 0 m * x + s.mode 1 m * y + s.mode 2 m * z)) ∧
    get_turb_vector s x y z c =
      ∑ m in Finset.range s.n_modes,
        2 * s.sol_weight_norm * s.ampl m *
          (s.aka c m *
              Real.cos (s.mode 0 m * x + s.mode 1 m * y + s.mode 2 m * z) -
            s.akb c m *
              Real.sin (s.mode 0 m * x + s.mode 1 m * y + s.mode 2 m * z)) := by
  have hre : ∀ m : ℕ, turb_real s m x y z =
      Real.cos (s.mode 0 m * x + s.mode 1 m * y + s.mode 2 m * z) := by
    intro m
    rw [turb_real]
    exact cos_add3 (s.mode 0 m * x) (s.mode 1 m * y) (s.mode 2 m * z)
  have him : ∀ m : ℕ, turb_imag s m x y z =
      Real.sin (s.mode 0 m * x + s.mode 1 m * y + s.mode 2 m * z) := by
    intro m
    rw [turb_imag]
    exact sin_add3 (s.mode 0 m * x) (s.mode 1 m * y) (s.mode 2 m * z)
  refine ⟨fun m => ⟨hre m, him m⟩, ?_⟩
  rw [get_turb_vector]
  exact Finset.sum_congr rfl fun m _ => by rw [hre m, him m]

lemma OU_foldl_snd (g : ℝ → ℤ → ℝ) (n : ℕ) (φ : ℕ → ℝ) (sd : ℤ) :
    ((List.range n).foldl (OU_fold_step g) (φ, sd)).2 = grn_update^[n] sd := by
  induction n with
  | zero => rfl
  | succ k ih =>
    rw [List.range_succ, List.foldl_append, List.foldl_cons, List.foldl_nil,
      Function.iterate_succ_apply', ← ih]
    rfl

lemma OU_foldl_fst (g : ℝ → ℤ → ℝ) (n : ℕ) (φ : ℕ → ℝ) (sd : ℤ) (i : ℕ) :
    ((List.range n).foldl (OU_fold_step g) (φ, sd)).1 i =
      if i < n then g (φ i) (grn_update^[i] sd) else φ i := by
  induction n with
  | zero => simp
  | succ k ih =>
    rw [List.range_succ, List.foldl_append, List.foldl_cons, List.foldl_nil]
    show Function.update _ k _ i = _
    rcases eq_or_ne i k with h | h
    · subst h
      rw [Function.update_same, ih, OU_foldl_snd]
      simp
    · rw [Function.update_noteq h, ih]
      rcases lt_trichotomy i k with h2 | h2 | h2
      · simp [h2, h2.trans (Nat.lt_succ_self k)]
      · exact absurd h2 h
      · have h3 : ¬ i < k := by omega
        have h4 : ¬ i < k + 1 := by omega
        simp [h3, h4]

lemma OU_noise_update_phases (s : TG) (i : ℕ) :
    (OU_noise_update s).OUphases i =
      if i < 6 * s.n_modes then
        s.OUphases i * Real.exp (-s.dt / s.decay) +
          Real.sqrt (1 - Real.exp (-s.dt / s.decay) * Real.exp (-s.dt / s.decay)) *
            s.OUvar * grn_val (grn_update^[i] s.seed)
      else s.OUphases i := by
  show ((List.range (6 * s.n_modes)).foldl (OU_fold_step _)
    (s.OUphases, s.seed)).1 i = _
  rw [OU_foldl_fst]

lemma OU_noise_update_seed (s : TG) :
    (OU_noise_update s).seed = grn_update^[6 * s.n_modes] s.seed := by
  show ((List.range (6 * s.n_modes)).foldl (OU_fold_step _)
    (s.OUphases, s.seed)).2 = _
  rw [OU_foldl_snd]

lemma OU_noise_update_step (s : TG) : (OU_noise_update s).step = s.step + 1 := rfl

lemma OU_noise_update_dt (s : TG) : (OU_noise_update s).dt = s.dt := rfl

lemma OU_iterate_step (n : ℕ) (s : TG) :
    (OU_noise_update^[n] s).step = s.step + n := by
  induction n generalizing s with
  | zero => simp
  | succ k ih =>
    rw [Function.iterate_succ_apply, ih, OU_noise_update_step]
    push_cast
    ring

lemma OU_iterate_dt (n : ℕ) (s : TG) : (OU_noise_update^[n] s).dt = s.dt := by
  induction n generalizing s with
  | zero => rfl
  | succ k ih => rw [Function.iterate_succ_apply, ih, OU_noise_update_dt]

lemma grn_update_iterate (n : ℕ) (sd : ℤ) :
    grn_update^[n] sd = ran1s_update^[2 * n] sd := by
  induction n generalizing sd with
  | zero => rfl
  | succ k ih =>
    rw [Function.iterate_succ_apply, ih, show 2 * (k + 1) = 2 * k + 2 by ring,
      Function.iterate_add_apply]
    rfl

/-- C5: each call to TurbGen_OU_noise_update replaces every slot
i < 6*n_modes by OUphases[i]*f + sqrt(1-f^2)*OUvar*g with
f = exp(-dt/decay), where g is the Gaussian deviate drawn for slot i (the
seed having advanced by two ran1s draws per preceding slot), and then
increments the step counter by exactly 1. -/
theorem OU_noise_update_slots (s : TG) (i : ℕ) (hi : i < 6 * s.n_modes) :
    (OU_noise_update s).OUphases i =
      s.OUphases i * Real.exp (-s.dt / s.decay) +
        Real.sqrt (1 - Real.exp (-s.dt / s.decay) ^ (2 : ℕ)) * s.OUvar *
          grn_val (grn_update^[i] s.seed) ∧
    (OU_noise_update s).step = s.step + 1 := by
  refine ⟨?_, OU_noise_update_step s⟩
  rw [OU_noise_update_phases, if_pos hi, sq]

/-- Witness for C5 at the concrete state sW and slot 0. -/
theorem OU_noise_update_slots_witness :
    (0 < 6 * sW.n_modes) ∧
      ((OU_noise_update sW).OUphases 0 =
        sW.OUphases 0 * Real.exp (-sW.dt / sW.decay) +
          Real.sqrt (1 - Real.exp (-sW.dt / sW.decay) ^ (2 : ℕ)) * sW.OUvar *
            grn_val (grn_update^[0] sW.seed) ∧
      (OU_noise_update sW).step = sW.step + 1) :=
  ⟨by decide, OU_noise_update_slots sW 0 (by decide)⟩

/-- C9 (counterexample): the OU advance consumes its randomness through
the fast generator ran1s, not through the long-period generator ran2: at
the concrete state sW (one mode, seed 140281) the seed after one advance
is twelve ran1s transitions, and the ran1s transition differs from the
long-period generator's transition at that seed. -/
theorem OU_advance_not_long_period_cex :
    (OU_noise_update sW).seed = ran1s_update^[12] 140281 ∧
    ran1s_update 140281 ≠ ran2_lcg1 140281 := by
  constructor
  · rw [OU_noise_update_seed, grn_update_iterate,
      show sW.seed = 140281 from rfl, show sW.n_modes = 1 from rfl]
  · decide

/-- C9 (amended): every OU phase advance draws its randomness with the
Gaussian sampler built on the fast uniform generator ran1s: one advance
applies the ran1s seed transition exactly 2 draws per Gaussian deviate
times 6*n_modes slots, i.e. 12*n_modes times. -/
theorem OU_advance_uses_ran1s (s : TG) :
    (OU_noise_update s).seed = ran1s_update^[12 * s.n_modes] s.seed := by
  rw [OU_noise_update_seed, grn_update_iterate,
    show 2 * (6 * s.n_modes) = 12 * s.n_modes by ring]

lemma OU_loop_eq_iterate (n : ℕ) :
    ∀ (is tgt : ℤ) (s : TG), (tgt - is).toNat = n →
      OU_loop is tgt s = OU_noise_update^[n] s := by
  induction n with
  | zero =>
    intro is tgt s h
    have h2 : ¬ is < tgt := by omega
    rw [OU_loop, dif_neg h2]
    rfl
  | succ k ih =>
    intro is tgt s h
    have h2 : is < tgt := by omega
    rw [OU_loop, dif_pos h2, ih (is + 1) tgt (OU_noise_update s) (by omega),
      Function.iterate_succ_apply]

lemma decomp_step (s : TG) : (get_decomposition_coeffs s).step = s.step := rfl

lemma decomp_dt (s : TG) : (get_decomposition_coeffs s).dt = s.dt := rfl

/-- C2: TurbGen_check_for_update(t) returns true exactly when
floor(t/dt) exceeds the current step; on a false return the state is
unchanged; on a true return the OU advance is applied exactly
floor(t/dt) - step_old times in sequence, the decomposition coefficients
are recomputed once on the result, and the final step equals
floor(t/dt). -/
theorem check_for_update_spec (s : TG) (t : ℝ) :
    ((check_for_update t s).1 = true ↔ s.step < ⌊t / s.dt⌋) ∧
    (⌊t / s.dt⌋ ≤ s.step → check_for_update t s = (false, s)) ∧
    (s.step < ⌊t / s.dt⌋ →
      (check_for_update t s).2 =
        get_decomposition_coeffs
          (OU_noise_update^[(⌊t / s.dt⌋ - s.step).toNat] s) ∧
      ((check_for_update t s).2).step = ⌊t / s.dt⌋) := by
  by_cases h : ⌊t / s.dt⌋ ≤ s.step
  · rw [check_for_update]
    refine ⟨?_, fun _ => by simp [h], fun h2 => absurd h2 (by omega)⟩
    simp [h]
  · have h2 : s.step < ⌊t / s.dt⌋ := by omega
    have h3 : check_for_update t s =
        (true, get_decomposition_coeffs (OU_loop s.step (⌊t / s.dt⌋) s)) := by
      rw [check_for_update]
      simp [h]
    have h4 : OU_loop s.step (⌊t / s.dt⌋) s =
        OU_noise_update^[(⌊t / s.dt⌋ - s.step).toNat] s :=
      OU_loop_eq_iterate _ _ _ _ rfl
    refine ⟨by rw [h3]; simpa using h2, fun h5 => absurd h5 (by omega),
      fun _ => ⟨?_, ?_⟩⟩
    · rw [h3, h4]
    · rw [h3]
      show (get_decomposition_coeffs _).step = _
      rw [decomp_step, h4, OU_iterate_step]
      omega

/-- Witness for C2 at the concrete state sW (step -1, dt 1) and time 1. -/
theorem check_for_update_spec_witness :
    (sW.step < ⌊(1 : ℝ) / sW.dt⌋) ∧
      ((check_for_update 1 sW).2 =
        get_decomposition_coeffs
          (OU_noise_update^[(⌊(1 : ℝ) / sW.dt⌋ - sW.step).toNat] sW) ∧
      ((check_for_update 1 sW).2).step = ⌊(1 : ℝ) / sW.dt⌋) := by
  have h : sW.step < ⌊(1 : ℝ) / sW.dt⌋ := by
    rw [show sW.step = -1 from rfl, show sW.dt = 1 from rfl]
    norm_num
  exact ⟨h, (check_for_update_spec sW 1).2.2 h⟩

/-- C6: a second call of TurbGen_check_for_update with the same time (no
larger time in between) performs no OU advance, changes no state, and
returns false. -/
theorem check_for_update_idempotent (s : TG) (t : ℝ) :
    check_for_update t ((check_for_update t s).2) =
      (false, (check_for_update t s).2) := by
  have key : ⌊t / ((check_for_update t s).2).dt⌋ ≤ ((check_for_update t s).2).step := by
    by_cases h : ⌊t / s.dt⌋ ≤ s.step
    · rw [check_for_update]
      simp [h]
    · have h2 : s.step < ⌊t / s.dt⌋ := by omega
      rw [check_for_update]
      simp only [h, if_neg, not_false_iff]
      rw [decomp_dt, decomp_step,
        OU_loop_eq_iterate ((⌊t / s.dt⌋ - s.step).toNat) s.step (⌊t / s.dt⌋) s rfl,
        OU_iterate_dt, OU_iterate_step]
      omega
  rw [check_for_update]
  simp [key]

lemma check_step_le (s : TG) (t : ℝ) :
    s.step ≤ ((check_for_update t s).2).step := by
  by_cases h : ⌊t / s.dt⌋ ≤ s.step
  · rw [check_for_update]
    simp [h]
  · rw [check_for_update]
    simp only [h, if_neg, not_false_iff]
    rw [decomp_step,
      OU_loop_eq_iterate ((⌊t / s.dt⌋ - s.step).toNat) s.step (⌊t / s.dt⌋) s rfl,
      OU_iterate_step]
    omega

/-- C7: the OU step counter is -1 after initialization, is incremented by
exactly 1 by each OU advance, and never decreases across any sequence of
TurbGen_check_for_update calls. -/
theorem step_counter_spec :
    (∀ p : Params, (init_turbulence_generator p).step = -1) ∧
    (∀ s : TG, (OU_noise_update s).step = s.step + 1) ∧
    ∀ (s : TG) (ts : List ℝ),
      s.step ≤ (ts.foldl (fun s1 t => (check_for_update t s1).2) s).step := by
  refine ⟨fun p => rfl, OU_noise_update_step, fun s ts => ?_⟩
  induction ts generalizing s with
  | nil => exact le_refl _
  | cons t rest ih =>
    rw [List.foldl_cons]
    exact le_trans (check_step_le s t) (ih _)

lemma decomp_aka (s : TG) (i j : ℕ) (hi : i < s.n_modes) (hj : j < s.ndim) :
    (get_decomposition_coeffs s).aka j i =
      s.sol_weight * curla s i j + (1 - s.sol_weight) * divb s i j := by
  show (if i < s.n_modes ∧ j < s.ndim then _ else _) = _
  rw [if_pos ⟨hi, hj⟩]

lemma decomp_akb (s : TG) (i j : ℕ) (hi : i < s.n_modes) (hj : j < s.ndim) :
    (get_decomposition_coeffs s).akb j i =
      s.sol_weight * curlb s i j + (1 - s.sol_weight) * diva s i j := by
  show (if i < s.n_modes ∧ j < s.ndim then _ else _) = _
  rw [if_pos ⟨hi, hj⟩]

lemma dot_phase_sub_div (s : TG) (i : ℕ) (hkk : kk s i ≠ 0)
    (P : ℕ → ℝ) (q : ℝ) :
    ∑ j in Finset.range s.ndim, s.mode j i * (P j - s.mode j i * q / kk s i) =
      (∑ j in Finset.range s.ndim, s.mode j i * P j) - q := by
  have h1 : ∑ j in Finset.range s.ndim,
      s.mode j i * (P j - s.mode j i * q / kk s i) =
      (∑ j in Finset.range s.ndim, s.mode j i * P j) -
        (∑ j in Finset.range s.ndim, s.mode j i * s.mode j i) * (q / kk s i) := by
    rw [Finset.sum_mul, ← Finset.sum_sub_distrib]
    exact Finset.sum_congr rfl fun j _ => by ring
  rw [h1, ← kk]
  congr 1
  field_simp

/-- C4: at solenoidal weight 1 the decomposition output of
TurbGen_get_decomposition_coeffs is transverse: the wavevector dotted over
the active dimensions with aka and with akb vanishes; at solenoidal
weight 0 it is longitudinal: aka and akb are scalar multiples of the
wavevector. -/
theorem decomposition_sol_comp_limits (s : TG) (i : ℕ) (hi : i < s.n_modes)
    (hkk : kk s i ≠ 0) :
    (s.sol_weight = 1 →
      (∑ j in Finset.range s.ndim,
        s.mode j i * (get_decomposition_coeffs s).aka j i) = 0 ∧
      (∑ j in Finset.range s.ndim,
        s.mode j i * (get_decomposition_coeffs s).akb j i) = 0) ∧
    (s.sol_weight = 0 →
      ∃ ca cb : ℝ, ∀ j : ℕ, j < s.ndim →
        (get_decomposition_coeffs s).aka j i = ca * s.mode j i ∧
        (get_decomposition_coeffs s).akb j i = cb * s.mode j i) := by
  constructor
  · intro h1
    constructor
    · have he : ∀ j ∈ Finset.range s.ndim,
          s.mode j i * (get_decomposition_coeffs s).aka j i =
          s.mode j i * (s.OUphases (6 * i + 2 * j) -
            s.mode j i * kb s i / kk s i) := by
        intro j hj
        rw [decomp_aka s i j hi (Finset.mem_range.mp hj), h1, curla, divb]
        ring
      rw [Finset.sum_congr rfl he,
        dot_phase_sub_div s i hkk (fun j => s.OUphases (6 * i + 2 * j)) (kb s i),
        ← kb, sub_self]
    · have he : ∀ j ∈ Finset.range s.ndim,
          s.mode j i * (get_decomposition_coeffs s).akb j i =
          s.mode j i * (s.OUphases (6 * i + 2 * j + 1) -
            s.mode j i * ka s i / kk s i) := by
        intro j hj
        rw [decomp_akb s i j hi (Finset.mem_range.mp hj), h1, curlb, diva]
        ring
      rw [Finset.sum_congr rfl he,
        dot_phase_sub_div s i hkk (fun j => s.OUphases (6 * i + 2 * j + 1)) (ka s i),
        ← ka, sub_self]
  · intro h0
    refine ⟨kb s i / kk s i, ka s i / kk s i, fun j hj => ⟨?_, ?_⟩⟩
    · rw [decomp_aka s i j hi hj, h0, divb]
      ring
    · rw [decomp_akb s i j hi hj, h0, diva]
      ring

/-- Witness for C4 at the concrete state sW, whose solenoidal weight is 1
and whose single active axis carries wavevector component 1. -/
theorem decomposition_sol_comp_limits_witness :
    (0 < sW.n_modes ∧ kk sW 0 ≠ 0) ∧
      (∑ j in Finset.range sW.ndim,
        sW.mode j 0 * (get_decomposition_coeffs sW).aka j 0) = 0 := by
  have h1 : 0 < sW.n_modes := by decide
  have h2 : kk sW 0 ≠ 0 := by
    rw [kk, show sW.ndim = 1 from rfl, Finset.sum_range_one,
      show sW.mode 0 0 = 1 from rfl]
    norm_num
  exact ⟨⟨h1, h2⟩,
    ((decomposition_sol_comp_limits sW 0 h1 h2).1 rfl).1⟩

/-- The invariant carried by every mode the builder emits: the wavevector
magnitude lies in the widened band, and components beyond the active
dimensionality are zero. -/
def goodMode (c : Cfg) (m : Mode) : Prop :=
  c.stir_min ≤ Real.sqrt (m.kx * m.kx + m.ky * m.ky + m.kz * m.kz) ∧
  Real.sqrt (m.kx * m.kx + m.ky * m.ky + m.kz * m.kz) ≤ c.stir_max ∧
  (c.ndim ≤ 1 → m.ky = 0) ∧ (c.ndim ≤ 2 → m.kz = 0)

lemma mem_lattice {nd : ℕ} {i : ℕ × ℕ × ℕ} (h : i ∈ lattice nd) :
    i.2.1 < (if 1 < nd then 257 else 1) ∧ i.2.2 < (if 2 < nd then 257 else 1) := by
  rw [lattice] at h
  obtain ⟨x, _, h2⟩ := List.mem_flatMap.mp h
  obtain ⟨y, hy, h3⟩ := List.mem_flatMap.mp h2
  obtain ⟨z, hz, h4⟩ := List.mem_map.mp h3
  subst h4
  exact ⟨List.mem_range.mp hy, List.mem_range.mp hz⟩

lemma mem_mirror_modes {nd : ℕ} {a kx ky kz : ℝ} {m : Mode}
    (hm : m ∈ mirror_modes nd a kx ky kz) :
    m.ampl = a ∧ m.kx = kx ∧ (m.ky = ky ∨ m.ky = -ky) ∧
    (m.kz = kz ∨ m.kz = -kz) ∧
    m.kx * m.kx + m.ky * m.ky + m.kz * m.kz = kx * kx + ky * ky + kz * kz := by
  rw [mirror_modes] at hm
  rcases List.mem_append.mp hm with h | h
  · rcases List.mem_append.mp h with h2 | h2
    · rw [List.mem_singleton] at h2
      subst h2
      exact ⟨rfl, rfl, Or.inl rfl, Or.inl rfl, by ring⟩
    · by_cases h1 : 1 < nd
      · rw [if_pos h1, List.mem_singleton] at h2
        subst h2
        exact ⟨rfl, rfl, Or.inr rfl, Or.inl rfl, by ring⟩
      · rw [if_neg h1] at h2
        exact absurd h2 (List.not_mem_nil m)
  · by_cases h2d : 2 < nd
    · rw [if_pos h2d] at h
      rcases List.mem_cons.mp h with h3 | h3
      · subst h3
        exact ⟨rfl, rfl, Or.inl rfl, Or.inr rfl, by ring⟩
      · rw [List.mem_singleton] at h3
        subst h3
        exact ⟨rfl, rfl, Or.inr rfl, Or.inr rfl, by ring⟩
    · rw [if_neg h2d] at h
      exact absurd h (List.not_mem_nil m)

lemma mirror_modes_length (nd : ℕ) (a kx ky kz : ℝ) :
    (mirror_modes nd a kx ky kz).length =
      1 + (if 1 < nd then 1 else 0) + (if 2 < nd then 2 else 0) := by
  rw [mirror_modes]
  by_cases h1 : 1 < nd <;> by_cases h2 : 2 < nd <;> simp [h1, h2]

lemma kyv_zero (c : Cfg) : kyv c 0 = 0 := by
  rw [kyv]
  norm_num

lemma kzv_zero (c : Cfg) : kzv c 0 = 0 := by
  rw [kzv]
  norm_num

lemma init_modes_BP_good (c : Cfg) (m : Mode) (hm : m ∈ init_modes_BP c) :
    goodMode c m := by
  rw [init_modes_BP] at hm
  obtain ⟨i, hi, hmem⟩ := List.mem_flatMap.mp hm
  by_cases hb : inBandBP c i
  · rw [if_pos hb] at hmem
    obtain ⟨_, hkx, hky, hkz, hsq⟩ := mem_mirror_modes hmem
    have hlat := mem_lattice hi
    refine ⟨?_, ?_, ?_, ?_⟩
    · rw [hsq]
      exact hb.1
    · rw [hsq]
      exact hb.2
    · intro hnd
      have hn1 : ¬ 1 < c.ndim := by omega
      rw [if_neg hn1] at hlat
      have hy0 : i.2.1 = 0 := by omega
      rcases hky with h | h <;> rw [h, hy0, kyv_zero]
      exact neg_zero
    · intro hnd
      have hn2 : ¬ 2 < c.ndim := by omega
      rw [if_neg hn2] at hlat
      have hz0 : i.2.2 = 0 := by omega
      rcases hkz with h | h <;> rw [h, hz0, kzv_zero]
      exact neg_zero
  · rw [if_neg hb] at hmem
    exact absurd hmem (List.not_mem_nil m)

lemma foldl_preserve {α σ : Type} (P : σ → Prop) (f : σ → α → σ)
    (hf : ∀ st a, P st → P (f st a)) :
    ∀ (l : List α) (st : σ), P st → P (l.foldl f st) := by
  intro l
  induction l with
  | nil => exact fun st h => h
  | cons a t ih => exact fun st h => ih _ (hf st a h)

lemma pl_candidate_ky (c : Cfg) (ik : ℤ) (st : PLState) (h : ¬ 1 < c.ndim) :
    (pl_candidate c ik st).2.2.1 = 0 := by
  simp only [pl_candidate]
  rw [if_neg h]

lemma pl_candidate_kz (c : Cfg) (ik : ℤ) (st : PLState) (h : ¬ 2 < c.ndim) :
    (pl_candidate c ik st).2.2.2 = 0 := by
  simp only [pl_candidate]
  rw [if_neg h]

lemma pl_angle_step_good (c : Cfg) (ik nang : ℤ) (st : PLState)
    (inv : ∀ m ∈ st.modes, goodMode c m) :
    ∀ m ∈ (pl_angle_step c ik nang st).modes, goodMode c m := by
  intro m hm
  simp only [pl_angle_step] at hm
  split at hm
  case isTrue hcond =>
    rcases List.mem_append.mp hm with h | h
    · exact inv m h
    · rw [List.mem_singleton] at h
      subst h
      refine ⟨hcond.1, hcond.2, fun hnd => ?_, fun hnd => ?_⟩
      · exact pl_candidate_ky c ik st (by omega)
      · exact pl_candidate_kz c ik st (by omega)
  case isFalse => exact inv m hm

lemma init_modes_good (c : Cfg) : ∀ m ∈ (init_modes c).1, goodMode c m := by
  intro m hm
  rw [init_modes] at hm
  by_cases hf : c.spect_form = 2
  · rw [if_pos hf] at hm
    have key : ∀ m2 ∈ (init_modes_PL c).modes, goodMode c m2 := by
      have hstep : ∀ (st : PLState) (ik : ℤ),
          (∀ m2 ∈ st.modes, goodMode c m2) →
          ∀ m2 ∈ (pl_ik_step c st ik).modes, goodMode c m2 := by
        intro st ik hst
        simp only [pl_ik_step]
        exact foldl_preserve (fun st2 => ∀ m2 ∈ st2.modes, goodMode c m2) _
          (fun st2 _ hst2 => pl_angle_step_good c ik _ st2 hst2) _ _ hst
      refine foldl_preserve (fun st => ∀ m2 ∈ st.modes, goodMode c m2)
        (pl_ik_step c) hstep _ _ ?_
      intro m2 hm2
      exact absurd hm2 (List.not_mem_nil m2)
    exact key m hm
  · rw [if_neg hf] at hm
    exact init_modes_BP_good c m hm

/-- C3: every mode produced by TurbGen_init_modes, for any of the three
spectral forms, has wavenumber magnitude sqrt(kx^2+ky^2+kz^2) inside the
closed widened band [stir_min, stir_max]. -/
theorem init_modes_in_band (c : Cfg) (m : Mode) (hm : m ∈ (init_modes c).1) :
    c.stir_min ≤ Real.sqrt (m.kx * m.kx + m.ky * m.ky + m.kz * m.kz) ∧
    Real.sqrt (m.kx * m.kx + m.ky * m.ky + m.kz * m.kz) ≤ c.stir_max :=
  ⟨(init_modes_good c m hm).1, (init_modes_good c m hm).2.1⟩

lemma cfg0_band : inBandBP cfg0 (1, 0, 0) := by
  have hkx : kxv cfg0 1 = 2 * Real.pi := by
    rw [kxv, show cfg0.Lx = 1 from rfl]
    norm_num
  have hmag : kmagBP cfg0 (1, 0, 0) = 2 * Real.pi := by
    rw [kmagBP]
    show Real.sqrt (kxv cfg0 1 * kxv cfg0 1 + kyv cfg0 0 * kyv cfg0 0 +
      kzv cfg0 0 * kzv cfg0 0) = _
    rw [hkx, kyv_zero, kzv_zero]
    rw [show 2 * Real.pi * (2 * Real.pi) + 0 * 0 + 0 * 0 =
      (2 * Real.pi) * (2 * Real.pi) by ring]
    exact Real.sqrt_mul_self (by positivity)
  constructor
  · rw [hmag, show cfg0.stir_min = 2 * Real.pi from rfl]
  · rw [hmag, show cfg0.stir_max = 2 * Real.pi from rfl]

lemma mode_w_mem : mode_w ∈ (init_modes cfg0).1 := by
  rw [init_modes, if_neg (by decide : ¬ cfg0.spect_form = 2)]
  show mode_w ∈ init_modes_BP cfg0
  rw [init_modes_BP]
  refine List.mem_flatMap.mpr ⟨(1, 0, 0), ?_, ?_⟩
  · show (1, 0, 0) ∈ lattice cfg0.ndim
    rw [show cfg0.ndim = 1 from rfl, lattice]
    refine List.mem_flatMap.mpr ⟨1, List.mem_range.mpr (by norm_num), ?_⟩
    refine List.mem_flatMap.mpr ⟨0, by simp, ?_⟩
    exact List.mem_map.mpr ⟨0, by simp, rfl⟩
  · rw [if_pos cfg0_band]
    rw [mirror_modes, show cfg0.ndim = 1 from rfl]
    simp [mode_w]

/-- Witness for C3: the concrete mode generated by cfg0 from lattice point
(1,0,0) lies in the band. -/
theorem init_modes_in_band_witness :
    cfg0.stir_min ≤
      Real.sqrt (mode_w.kx * mode_w.kx + mode_w.ky * mode_w.ky +
        mode_w.kz * mode_w.kz) ∧
    Real.sqrt (mode_w.kx * mode_w.kx + mode_w.ky * mode_w.ky +
      mode_w.kz * mode_w.kz) ≤ cfg0.stir_max :=
  init_modes_in_band cfg0 mode_w mode_w_mem

/-- C10: for the Band and Parabola spectra the generation pass of
TurbGen_init_modes emits, mode for mode, exactly the count computed by the
preliminary counting pass: the final n_modes (after the trailing
increment) equals tot_n_modes, each retained lattice point contributing
its mirror multiplicity 1 + (1 if ndim > 1) + (2 if ndim > 2). -/
theorem count_pass_matches_generation (c : Cfg) (h : c.spect_form ≠ 2) :
    (init_modes c).1.length = count_modes c ∧
    ∀ a kx ky kz : ℝ, (mirror_modes c.ndim a kx ky kz).length =
      1 + (if 1 < c.ndim then 1 else 0) + (if 2 < c.ndim then 2 else 0) := by
  refine ⟨?_, fun a kx ky kz => mirror_modes_length c.ndim a kx ky kz⟩
  rw [init_modes, if_neg h]
  show (init_modes_BP c).length = count_modes c
  rw [init_modes_BP, count_modes, List.length_flatMap]
  congr 1
  apply List.map_congr_left
  intro i _
  by_cases hb : inBandBP c i
  · rw [Function.comp_apply, if_pos hb, if_pos hb, mirror_modes_length]
  · rw [Function.comp_apply, if_neg hb, if_neg hb]
    rfl

/-- Witness for C10 at the concrete band-spectrum configuration cfg0. -/
theorem count_pass_matches_generation_witness :
    cfg0.spect_form ≠ 2 ∧ (init_modes cfg0).1.length = count_modes cfg0 :=
  ⟨by decide, (count_pass_matches_generation cfg0 (by decide)).1⟩

lemma comp_ge3 (m : Mode) (j : ℕ) (h : 3 ≤ j) : m.comp j = 0 := by
  rcases j with _ | _ | _ | n
  · omega
  · omega
  · omega
  · rfl

lemma mode_ksq_sum (n : ℕ) (m : Mode) (h1 : 1 ≤ n)
    (hky : n ≤ 1 → m.ky = 0) (hkz : n ≤ 2 → m.kz = 0) :
    ∑ j in Finset.range n, m.comp j * m.comp j =
      m.kx * m.kx + m.ky * m.ky + m.kz * m.kz := by
  rcases n with _ | _ | _ | d
  · omega
  · rw [Finset.sum_range_one]
    show m.kx * m.kx = _
    rw [hky le_rfl, hkz (by omega)]
    ring
  · rw [Finset.sum_range_succ, Finset.sum_range_one]
    show m.kx * m.kx + m.ky * m.ky = _
    rw [hkz le_rfl]
    ring
  · have hsub : Finset.range 3 ⊆ Finset.range (d + 3) :=
      Finset.range_subset.mpr (by omega)
    have hz : ∀ x ∈ Finset.range (d + 3), x ∉ Finset.range 3 →
        m.comp x * m.comp x = 0 := by
      intro x _ hx2
      rw [comp_ge3 m x (by simpa using hx2)]
      ring
    rw [← Finset.sum_subset hsub hz]
    rw [Finset.sum_range_succ, Finset.sum_range_succ, Finset.sum_range_one]
    rfl

lemma band_pos_ksq (c : Cfg) (h0 : 0 < c.stir_min) (m : Mode)
    (hg : goodMode c m) : 0 < m.kx * m.kx + m.ky * m.ky + m.kz * m.kz := by
  by_contra hc
  push_neg at hc
  have h2 : Real.sqrt (m.kx * m.kx + m.ky * m.ky + m.kz * m.kz) = 0 :=
    Real.sqrt_eq_zero'.mpr hc
  have h3 := hg.1
  rw [h2] at h3
  linarith

/-- C8: if the band minimum stir_min is strictly positive (and the
dimensionality is at least 1), then for every mode of the initialized
generator the quantity kk = sum over the first ndim axes of k_axis^2 that
TurbGen_get_decomposition_coeffs divides by is strictly positive, hence
never zero: the zero wavevector is excluded by the band check of
TurbGen_init_modes. -/
theorem decomposition_ksq_never_zero (p : Params)
    (h0 : 0 < (init_cfg p).stir_min) (h1 : 1 ≤ p.ndim) (i : ℕ)
    (hi : i < (init_turbulence_generator p).n_modes) :
    0 < kk (init_turbulence_generator p) i ∧
    kk (init_turbulence_generator p) i ≠ 0 := by
  have hilen : i < (init_modes (init_cfg p)).1.length := hi
  have hmem : (init_modes (init_cfg p)).1.get ⟨i, hilen⟩ ∈ (init_modes (init_cfg p)).1 :=
    List.get_mem _ i hilen
  have hg := init_modes_good (init_cfg p) _ hmem
  have hmode : ∀ j : ℕ, (init_turbulence_generator p).mode j i =
      ((init_modes (init_cfg p)).1.get ⟨i, hilen⟩).comp j := by
    intro j
    show (((init_modes (init_cfg p)).1.get? i).map (fun m2 => m2.comp j)).getD 0 = _
    rw [List.get?_eq_get hilen]
    rfl
  have hpos : 0 < kk (init_turbulence_generator p) i := by
    rw [kk]
    have hc : ∑ j in Finset.range (init_turbulence_generator p).ndim,
        (init_turbulence_generator p).mode j i * (init_turbulence_generator p).mode j i =
        ∑ j in Finset.range p.ndim,
          ((init_modes (init_cfg p)).1.get ⟨i, hilen⟩).comp j *
            ((init_modes (init_cfg p)).1.get ⟨i, hilen⟩).comp j :=
      Finset.sum_congr rfl fun j _ => by rw [hmode j]
    rw [hc, mode_ksq_sum p.ndim _ h1 (fun h => hg.2.2.1 h) (fun h => hg.2.2.2 h)]
    exact band_pos_ksq (init_cfg p) h0 _ hg
  exact ⟨hpos, ne_of_gt hpos⟩

/-- The concrete parameter set used to exercise the initialized
generator: 1D unit box, band spectrum over wavenumbers 1..3. -/
noncomputable def p0 : Params :=
  { ndim := 1, xmin := 0, xmax := 1, ymin := 0, ymax := 1, zmin := 0, zmax := 1,
    velocity := 1, k_driv := 2, k_min := 1, k_max := 3, sol_weight := 0.5,
    spect_form := 0, power_law_exp := 2, angles_exp := 1, energy_coeff := 1,
    random_seed := 140281, nsteps_per_turnover_time := 10 }

lemma dblEpsilon_pos : 0 < dblEpsilon := by
  rw [dblEpsilon]
  norm_num

lemma dblEpsilon_lt_one : dblEpsilon < 1 := by
  rw [dblEpsilon]
  norm_num

lemma p0_stir_min_pos : 0 < (init_cfg p0).stir_min := by
  show 0 < (1 - dblEpsilon) * 2 * Real.pi / (1 - 0)
  have h1 := dblEpsilon_lt_one
  have h2 := Real.pi_pos
  rw [show (1 : ℝ) - 0 = 1 by norm_num, div_one]
  nlinarith

lemma p0_band : inBandBP (init_cfg p0) (1, 0, 0) := by
  have hε0 := dblEpsilon_pos
  have hπ := Real.pi_pos
  have hkx : kxv (init_cfg p0) 1 = 2 * Real.pi := by
    rw [kxv]
    show 2 * Real.pi * ((1 : ℕ) : ℝ) / (1 - 0) = _
    norm_num
  have hmag : kmagBP (init_cfg p0) (1, 0, 0) = 2 * Real.pi := by
    rw [kmagBP]
    show Real.sqrt (kxv (init_cfg p0) 1 * kxv (init_cfg p0) 1 +
      kyv (init_cfg p0) 0 * kyv (init_cfg p0) 0 +
      kzv (init_cfg p0) 0 * kzv (init_cfg p0) 0) = _
    rw [hkx, kyv_zero, kzv_zero]
    rw [show 2 * Real.pi * (2 * Real.pi) + 0 * 0 + 0 * 0 =
      (2 * Real.pi) * (2 * Real.pi) by ring]
    exact Real.sqrt_mul_self (by positivity)
  constructor
  · rw [hmag]
    show (1 - dblEpsilon) * 2 * Real.pi / (1 - 0) ≤ 2 * Real.pi
    rw [show (1 : ℝ) - 0 = 1 by norm_num, div_one]
    nlinarith
  · rw [hmag]
    show 2 * Real.pi ≤ (3 + dblEpsilon) * 2 * Real.pi / (1 - 0)
    rw [show (1 : ℝ) - 0 = 1 by norm_num, div_one]
    nlinarith

lemma p0_mode_mem :
    (⟨amplitudeBP (init_cfg p0) (kmagBP (init_cfg p0) (1, 0, 0)),
      kxv (init_cfg p0) 1, kyv (init_cfg p0) 0, kzv (init_cfg p0) 0⟩ : Mode) ∈
      (init_modes (init_cfg p0)).1 := by
  rw [init_modes, if_neg (by decide : ¬ (init_cfg p0).spect_form = 2)]
  show _ ∈ init_modes_BP (init_cfg p0)
  rw [init_modes_BP]
  refine List.mem_flatMap.mpr ⟨(1, 0, 0), ?_, ?_⟩
  · show (1, 0, 0) ∈ lattice (init_cfg p0).ndim
    rw [show (init_cfg p0).ndim = 1 from rfl, lattice]
    refine List.mem_flatMap.mpr ⟨1, List.mem_range.mpr (by norm_num), ?_⟩
    refine List.mem_flatMap.mpr ⟨0, by simp, ?_⟩
    exact List.mem_map.mpr ⟨0, by simp, rfl⟩
  · rw [if_pos p0_band]
    rw [mirror_modes, show (init_cfg p0).ndim = 1 from rfl]
    simp

lemma p0_n_modes_pos : 0 < (init_turbulence_generator p0).n_modes := by
  show 0 < (init_modes (init_cfg p0)).1.length
  exact List.length_pos.mpr (List.ne_nil_of_mem p0_mode_mem)

/-- Witness for C8 at the concrete parameters p0 and mode index 0. -/
theorem decomposition_ksq_never_zero_witness :
    (0 < (init_cfg p0).stir_min ∧ 1 ≤ p0.ndim ∧
      0 < (init_turbulence_generator p0).n_modes) ∧
    0 < kk (init_turbulence_generator p0) 0 :=
  ⟨⟨p0_stir_min_pos, by decide, p0_n_modes_pos⟩,
    (decomposition_ksq_never_zero p0 p0_stir_min_pos (by decide) 0
      p0_n_modes_pos).1⟩

end TurbGen
